import Mathlib

/-!
Verification of the BTRbot Twitch chat relay (iBlackish/BTRbot).

The repository holds two successive revisions of one program:
* the legacy revision (src/unnamed/part_000, duplicated as the first half of
  src/index.js): a stateless relay that forwards classified chat events with
  sendToSupabase, with no voter set;
* the current revision (second half of src/index.js): a relay that keeps the
  in-memory set currentPhaseVoters for one-vote-per-phase deduplication, a
  voting-phase reset callback, and an exponential-backoff resubscription loop.

Both message handlers, the reset callback, the backoff scheduler and the
connection retry loop are embedded below as pure functions; the network calls
(supabase inserts / sendToSupabase) and console.log calls become an explicit
list of effects returned by the handler, in program order.
-/

/-- A row inserted into the events_queue table, i.e. the JSON body of
sendToSupabase in the legacy revision and of supabase.from(events_queue).insert
in the current revision: fields event_type, user_name, amount, message. -/
structure EventRecord where
  event_type : String
  user_name : String
  amount : Nat
  message : String
deriving DecidableEq, Repr

/-- The console.log lines of the current revision that the claims can observe
(one constructor per console.log call site in the message handler). -/
inductive LogLine where
  | cheered (user : String) (bits : Nat)
  | alreadyVoted (user : String)
  | voted (user : String) (choice : String)
  | usedAttack (user : String)
deriving DecidableEq, Repr

/-- One observable action of the current revision message handler: either an
insert into events_queue or a console.log line. -/
inductive Effect where
  | insertEvent (e : EventRecord)
  | log (l : LogLine)
deriving DecidableEq, Repr

/-- The chat tags of the current revision handler. bits holds the already
parsed value of parseInt(tags.bits) with 0 for a missing or unparsable tag,
matching the expression parseInt(tags.bits) with a fallback to 0. -/
structure Tags where
  displayName : Option String
  username : String
  badgesBroadcaster : Option String
  mod : Bool
  subscriber : Bool
  bits : Nat
deriving DecidableEq, Repr

/-- JS String.prototype.trim: strip whitespace from both ends (modelled on the
character list; the inputs of interest are ASCII). -/
def jsTrim (s : String) : String :=
  ⟨(((s.data.dropWhile Char.isWhitespace).reverse).dropWhile Char.isWhitespace).reverse⟩

/-- JS String.prototype.toLowerCase (ASCII case mapping on the character
list). -/
def jsToLower (s : String) : String :=
  ⟨s.data.map Char.toLower⟩

/-- JS String.prototype.startsWith. -/
def jsStartsWith (s pre : String) : Bool :=
  pre.data.isPrefixOf s.data

/-- JS String.prototype.slice with a single nonnegative argument: drop the
first n characters. -/
def jsSlice (s : String) (n : Nat) : String :=
  ⟨s.data.drop n⟩

/-- JS String.prototype.charAt: the one-character string at index n (empty
when out of range). -/
def jsCharAt (s : String) (n : Nat) : String :=
  ⟨(s.data.drop n).take 1⟩

/-- The voter set currentPhaseVoters: a JS Set of lowercased identities,
modelled as a duplicate-free-by-construction list. -/
abbrev VoterSet := List String

/-- JS Set.add: inserting a member already present leaves the set unchanged. -/
def VoterSet.add (s : VoterSet) (k : String) : VoterSet :=
  if s.contains k then s else k :: s

/-- JS Set.size. -/
def VoterSet.size (s : VoterSet) : Nat := s.length

/-- The expression tags[display-name] with a falsy fallback to tags.username:
an absent or empty display name falls back to the login name. -/
def pickUsername (displayName : Option String) (username : String) : String :=
  match displayName with
  | some d => if d = "" then username else d
  | none => username

/-- The dedup key of a sender in the current revision: username.toLowerCase()
applied to the resolved display name. -/
def senderKey (tags : Tags) : String :=
  jsToLower (pickUsername tags.displayName tags.username)

/-- The vote guard of the current revision: the list literal
[!1, !2, !3].includes(message.trim()). -/
def isVoteText (message : String) : Bool :=
  ["!1", "!2", "!3"].contains (jsTrim message)

/-- message.trim().charAt(1): the digit of a vote command. -/
def voteDigit (message : String) : String :=
  jsCharAt (jsTrim message) 1

/-- tags.badges?.broadcaster === the string 1 (computed by the handler of the
current revision and never used afterwards, like isMod and isSubscriber). -/
def isBroadcaster (tags : Tags) : Bool := tags.badgesBroadcaster == some "1"

/-- The cheer branch of the current revision handler: when bits > 0, one
channel.cheer insert followed by its console.log line. -/
def cheerEffects (tags : Tags) (message : String) : List Effect :=
  if tags.bits > 0 then
    [Effect.insertEvent ⟨"channel.cheer", pickUsername tags.displayName tags.username,
       tags.bits, message⟩,
     Effect.log (LogLine.cheered (pickUsername tags.displayName tags.username) tags.bits)]
  else []

/-- The chat message handler of the current revision (client.on message of the
second half of src/index.js, lines 216-263): cheer branch, vote branch with an
early return on a duplicate vote, then the log-only attack branch. Returns the
updated voter set and the effects in program order. The early return in the
duplicate-vote branch skips the attack branch, hence the duplicated trailing
attack check on the fall-through paths. -/
def onMessage (voters : VoterSet) (tags : Tags) (message : String) (self : Bool) :
    VoterSet × List Effect :=
  if self then (voters, [])
  else
    let username := pickUsername tags.displayName tags.username
    let pre := cheerEffects tags message
    if isVoteText message then
      if voters.contains (jsToLower username) then
        (voters, pre ++ [Effect.log (LogLine.alreadyVoted username)])
      else
        let voteNumber := voteDigit message
        let voters2 := VoterSet.add voters (jsToLower username)
        let post := pre ++
          [Effect.insertEvent ⟨"vote", username, 1, voteNumber⟩,
           Effect.log (LogLine.voted username voteNumber)]
        if jsToLower (jsTrim message) = "!attack" then
          (voters2, post ++ [Effect.log (LogLine.usedAttack username)])
        else (voters2, post)
    else
      if jsToLower (jsTrim message) = "!attack" then
        (voters, pre ++ [Effect.log (LogLine.usedAttack username)])
      else (voters, pre)

/-- Sequential processing of a list of chat messages by the current revision
handler, each handler execution run to completion before the next starts;
effects are concatenated in arrival order. -/
def processMessages (voters : VoterSet) : List (Tags × String) → VoterSet × List Effect
  | [] => (voters, [])
  | m :: rest =>
      let r := onMessage voters m.1 m.2 false
      let r2 := processMessages r.1 rest
      (r2.1, r.2 ++ r2.2)

/-- An effect is an admitted (forwarded) vote when it is an insert of a row
with event_type vote. -/
def isVoteInsert : Effect → Bool
  | Effect.insertEvent e => e.event_type == "vote"
  | Effect.log _ => false

/-- Number of admitted votes among a list of effects. -/
def admittedVotes (effs : List Effect) : Nat :=
  (effs.filter isVoteInsert).length

/-- The inserts of a given event_type among a list of effects. -/
def insertsOfType (ty : String) (effs : List Effect) : List Effect :=
  effs.filter fun e =>
    match e with
    | Effect.insertEvent r => r.event_type == ty
    | Effect.log _ => false

/-- The chat tags of the legacy revision handler: tags.username, the raw bits
tag (bits is the parsed numeric value when the tag is present), the msg-id tag
and the subscriber flag. -/
structure TagsV1 where
  username : String
  bits : Option Nat
  msgId : Option String
  subscriber : Bool
deriving DecidableEq, Repr

/-- The chat message handler of the legacy revision (client.on message of
src/unnamed/part_000, lines 42-89): every branch is an independent if with no
early return; the returned list holds the sendToSupabase calls in program
order. Branches: bits cheer, sub or resub, gifted subs, sub-only votes
(regex match of the untrimmed text and the subscriber flag), boss attack
(untrimmed lowercased comparison), and the operator-only secret commands. -/
def onMessageV1 (tags : TagsV1) (message : String) (self : Bool) : List EventRecord :=
  if self then []
  else
    let username := tags.username
    let cheer :=
      match tags.bits with
      | some b => if b > 0 then [(⟨"channel.cheer", username, b, ""⟩ : EventRecord)] else []
      | none => []
    let sub :=
      if tags.msgId == some "sub" || tags.msgId == some "resub" then
        [(⟨"channel.subscribe", username, 1, ""⟩ : EventRecord)]
      else []
    let gift :=
      if tags.msgId == some "subgift" || tags.msgId == some "anonsubgift" then
        [(⟨"channel.subscription.gift", username, 1, ""⟩ : EventRecord)]
      else []
    let vote :=
      if (["!1", "!2", "!3"].contains message) && tags.subscriber then
        [(⟨"vote", username, 1, jsCharAt message 1⟩ : EventRecord)]
      else []
    let attack :=
      if jsToLower message = "!attack" then
        [(⟨"boss_attack", username, 1, ""⟩ : EventRecord)]
      else []
    let secret :=
      if jsToLower username = "iblackish_" then
        (if jsStartsWith message "!ripple_start" then
          [(⟨"secret_start", "iblackish_", 1, jsTrim (jsSlice message 14)⟩ : EventRecord)]
         else []) ++
        (if message = "!ripple_end" then
          [(⟨"secret_end", "iblackish_", 1, ""⟩ : EventRecord)]
         else [])
      else []
    cheer ++ sub ++ gift ++ vote ++ attack ++ secret

/-- The boss_attack rows among the outputs of the legacy handler. -/
def bossAttackRecords (l : List EventRecord) : List EventRecord :=
  l.filter fun e => e.event_type == "boss_attack"

/-- The mutable globals of the current revision that the claims touch:
currentPhaseVoters and reconnectAttempts. -/
structure BotState where
  currentPhaseVoters : VoterSet
  reconnectAttempts : Nat
deriving DecidableEq, Repr

/-- The postgres_changes callback of subscribeToVotingPhases (src/index.js,
lines 179-184), fired on an insert with event_type voting_phase_start: it
clears currentPhaseVoters and zeroes reconnectAttempts. -/
def onVotingPhaseStart (st : BotState) : BotState :=
  { st with currentPhaseVoters := [], reconnectAttempts := 0 }

/-- MAX_RECONNECT_ATTEMPTS of the current revision. -/
def MAX_RECONNECT_ATTEMPTS : Nat := 10

/-- BASE_RECONNECT_DELAY of the current revision, in milliseconds. -/
def BASE_RECONNECT_DELAY : Nat := 2000

/-- scheduleReconnect (src/index.js, lines 200-213): given the current value
of reconnectAttempts, either give up (attempt budget exhausted: counter
unchanged, no timer set) or increment the counter and schedule a resubscribe
after min(BASE_RECONNECT_DELAY * 2 ^ (attempts - 1), 60000) milliseconds,
computed from the incremented counter. Returns the new counter and the delay
of the timer set, none when no timer is set. -/
def scheduleReconnect (reconnectAttempts : Nat) : Nat × Option Nat :=
  if MAX_RECONNECT_ATTEMPTS ≤ reconnectAttempts then (reconnectAttempts, none)
  else
    let a := reconnectAttempts + 1
    (a, some (min (BASE_RECONNECT_DELAY * 2 ^ (a - 1)) 60000))

/-- The status values delivered to the subscribe callback of
subscribeToVotingPhases. -/
inductive SubStatus where
  | SUBSCRIBED
  | CHANNEL_ERROR
  | CLOSED
  | other
deriving DecidableEq, Repr

/-- The subscribe status callback (src/index.js, lines 185-196): a SUBSCRIBED
status zeroes reconnectAttempts; CHANNEL_ERROR and CLOSED call
scheduleReconnect; any other status is ignored. Returns the new counter and
the delay of the reconnect timer set, if any. -/
def onSubscribeStatus (reconnectAttempts : Nat) : SubStatus → Nat × Option Nat
  | SubStatus.SUBSCRIBED => (0, none)
  | SubStatus.CHANNEL_ERROR => scheduleReconnect reconnectAttempts
  | SubStatus.CLOSED => scheduleReconnect reconnectAttempts
  | SubStatus.other => (reconnectAttempts, none)

/-- Process a sequence of subscription status callbacks, collecting the delays
of every reconnect timer that gets set. -/
def runStatuses (reconnectAttempts : Nat) : List SubStatus → Nat × List Nat
  | [] => (reconnectAttempts, [])
  | st :: rest =>
      let r := onSubscribeStatus reconnectAttempts st
      let r2 := runStatuses r.1 rest
      (r2.1, r.2.toList ++ r2.2)

/-- connectWithRetry of the legacy revision (src/unnamed/part_000, lines
23-40): attempt client.connect(); on failure, when fewer than 3 retries have
been used, wait 5000 ms and recurse with attempts + 1, otherwise log the fatal
give-up. The connection oracle ok gives the outcome of the attempt with the
given index; the result is the list of retry delays waited, in order, and
whether the connection finally succeeded. -/
def connectWithRetry (ok : Nat → Bool) (attempts : Nat) : List Nat × Bool :=
  if ok attempts then ([], true)
  else if h : attempts < 3 then
    let r := connectWithRetry ok (attempts + 1)
    (5000 :: r.1, r.2)
  else ([], false)
termination_by 4 - attempts
decreasing_by omega

/-- The first half of the vote branch of the current revision handler, up to
and including the awaited events_queue insert (src/index.js, lines 238-250):
the voter-set membership check and, for an absent sender, the vote insert that
starts the await. The set update of line 253 happens only after the await
completes, in voteResume. Returns the effects of this half and the pending
dedup key to record, none for a rejected duplicate. -/
def voteCheckAndForward (voters : VoterSet) (tags : Tags) (message : String) :
    List Effect × Option String :=
  let username := pickUsername tags.displayName tags.username
  if voters.contains (jsToLower username) then
    ([Effect.log (LogLine.alreadyVoted username)], none)
  else
    ([Effect.insertEvent ⟨"vote", username, 1, voteDigit message⟩], some (jsToLower username))

/-- The second half of the vote branch of the current revision handler, run
when the awaited insert resolves (src/index.js, lines 252-254): record the
pending sender in the voter set and log the admitted vote. -/
def voteResume (voters : VoterSet) (tags : Tags) (message : String) :
    Option String → VoterSet × List Effect
  | none => (voters, [])
  | some k =>
      (VoterSet.add voters k,
       [Effect.log (LogLine.voted (pickUsername tags.displayName tags.username)
          (voteDigit message))])

/-- The interleaving the async handler permits: two vote messages from the
same sender arrive in quick succession, the second handler execution runs its
membership check while the first execution is still suspended on its awaited
insert, and only then do both awaits resolve. -/
def interleavedDuplicateVotes (voters : VoterSet) (tags : Tags) (m1 m2 : String) :
    VoterSet × List Effect :=
  let c1 := voteCheckAndForward voters tags m1
  let c2 := voteCheckAndForward voters tags m2
  let r1 := voteResume voters tags m1 c1.2
  let r2 := voteResume r1.1 tags m2 c2.2
  (r2.1, c1.1 ++ c2.1 ++ r1.2 ++ r2.2)

example : onMessage [] ⟨none, "alice", none, false, false, 0⟩ "!1" false =
    (["alice"], [Effect.insertEvent ⟨"vote", "alice", 1, "1"⟩,
                 Effect.log (LogLine.voted "alice" "1")]) := by decide

example : onMessage ["alice"] ⟨none, "Alice", none, false, false, 0⟩ "!2" false =
    (["alice"], [Effect.log (LogLine.alreadyVoted "Alice")]) := by decide

example : onMessage [] ⟨none, "bob", none, false, false, 0⟩ " !ATTACK " false =
    ([], [Effect.log (LogLine.usedAttack "bob")]) := by decide

example : onMessageV1 ⟨"iBlackish_", none, none, false⟩ "!ripple_start Boss Phase 2" false =
    [⟨"secret_start", "iblackish_", 1, "Boss Phase 2"⟩] := by decide

/-! ### Helper lemmas about the vote branch of the current revision -/

theorem isVoteText_cases {m : String} (h : isVoteText m = true) :
    jsTrim m = "!1" ∨ jsTrim m = "!2" ∨ jsTrim m = "!3" := by
  simp only [isVoteText, List.contains, List.elem_eq_mem, List.mem_cons,
    List.not_mem_nil, or_false, decide_eq_true_eq] at h
  tauto

theorem isVoteText_not_attack {m : String} (h : isVoteText m = true) :
    ¬ jsToLower (jsTrim m) = "!attack" := by
  rcases isVoteText_cases h with h1 | h1 | h1 <;> rw [h1] <;> decide

theorem onMessage_duplicate_vote (voters : VoterSet) (tags : Tags) (m : String)
    (hm : isVoteText m = true) (hdup : voters.contains (senderKey tags) = true) :
    onMessage voters tags m false =
      (voters, cheerEffects tags m ++
        [Effect.log (LogLine.alreadyVoted (pickUsername tags.displayName tags.username))]) := by
  simp only [senderKey] at hdup
  have hmem : jsToLower (pickUsername tags.displayName tags.username) ∈ voters :=
    List.elem_iff.mp hdup
  simp [onMessage, hm, hdup, hmem]

theorem onMessage_new_vote (voters : VoterSet) (tags : Tags) (m : String)
    (hm : isVoteText m = true) (hnew : voters.contains (senderKey tags) = false) :
    onMessage voters tags m false =
      (VoterSet.add voters (senderKey tags),
       cheerEffects tags m ++
        [Effect.insertEvent ⟨"vote", pickUsername tags.displayName tags.username, 1, voteDigit m⟩,
         Effect.log (LogLine.voted (pickUsername tags.displayName tags.username) (voteDigit m))]) := by
  have hatk := isVoteText_not_attack hm
  simp only [senderKey] at hnew
  have hmem : jsToLower (pickUsername tags.displayName tags.username) ∉ voters := by
    intro hx
    have h2 : voters.contains (jsToLower (pickUsername tags.displayName tags.username)) = true :=
      List.elem_iff.mpr hx
    exact absurd (h2.symm.trans hnew) (by decide)
  simp [onMessage, hm, hnew, hmem, hatk, senderKey]

theorem admittedVotes_append (a b : List Effect) :
    admittedVotes (a ++ b) = admittedVotes a + admittedVotes b := by
  simp [admittedVotes, List.filter_append]

theorem admittedVotes_cheerEffects (tags : Tags) (m : String) :
    admittedVotes (cheerEffects tags m) = 0 := by
  unfold cheerEffects
  split <;> simp [admittedVotes, isVoteInsert]

theorem VoterSet.contains_true_iff (s : VoterSet) (k : String) :
    s.contains k = true ↔ k ∈ s.toFinset := by
  rw [List.mem_toFinset]
  exact List.elem_iff

theorem VoterSet.contains_false_iff (s : VoterSet) (k : String) :
    s.contains k = false ↔ k ∉ s.toFinset := by
  rw [← VoterSet.contains_true_iff]
  cases h : s.contains k <;> simp

theorem VoterSet.toFinset_add (s : VoterSet) (k : String) :
    (VoterSet.add s k).toFinset = insert k s.toFinset := by
  unfold VoterSet.add
  split
  · next h =>
    exact (Finset.insert_eq_self.mpr ((VoterSet.contains_true_iff s k).mp h)).symm
  · simp

/-- The dedup invariant of the current revision, proved by induction over the
sequential event stream with the voter set generalized: the final voter set is
the initial one joined with the senders of the sequence, and the number of
admitted votes is the number of distinct dedup keys not already present. -/
theorem processMessages_invariant (msgs : List (Tags × String))
    (hv : ∀ p ∈ msgs, isVoteText p.2 = true) (s : VoterSet) :
    (processMessages s msgs).1.toFinset =
        s.toFinset ∪ (msgs.map fun p => senderKey p.1).toFinset
    ∧ admittedVotes (processMessages s msgs).2 =
        ((msgs.map fun p => senderKey p.1).toFinset \ s.toFinset).card := by
  induction msgs generalizing s with
  | nil => simp [processMessages, admittedVotes]
  | cons p rest ih =>
    have hp : isVoteText p.2 = true := hv p (by simp)
    have hrest : ∀ q ∈ rest, isVoteText q.2 = true := fun q hq => hv q (by simp [hq])
    rcases hc : s.contains (senderKey p.1) with _ | _
    · -- the sender is new: one admitted vote, key inserted
      have hks : senderKey p.1 ∉ s.toFinset := (VoterSet.contains_false_iff s _).mp hc
      have hstep := onMessage_new_vote s p.1 p.2 hp hc
      have ihs := ih hrest (VoterSet.add s (senderKey p.1))
      constructor
      · show (processMessages s (p :: rest)).1.toFinset = _
        simp only [processMessages, hstep]
        rw [ihs.1, VoterSet.toFinset_add]
        ext x
        simp only [Finset.mem_union, Finset.mem_insert, List.map_cons, List.toFinset_cons]
        tauto
      · show admittedVotes (processMessages s (p :: rest)).2 = _
        simp only [processMessages, hstep]
        rw [admittedVotes_append, admittedVotes_append, admittedVotes_cheerEffects,
          ihs.2, VoterSet.toFinset_add]
        have hsplit : ((p :: rest).map fun q => senderKey q.1).toFinset \ s.toFinset =
            insert (senderKey p.1)
              ((rest.map fun q => senderKey q.1).toFinset \ insert (senderKey p.1) s.toFinset) := by
          ext x
          simp only [List.map_cons, List.toFinset_cons, Finset.mem_sdiff, Finset.mem_insert]
          constructor
          · rintro ⟨h1 | h1, h2⟩
            · exact Or.inl h1
            · by_cases hx : x = senderKey p.1
              · exact Or.inl hx
              · exact Or.inr ⟨h1, fun h3 => (h3.elim hx h2 : False)⟩
          · rintro (h1 | ⟨h1, h2⟩)
            · subst h1; exact ⟨Or.inl rfl, hks⟩
            · exact ⟨Or.inr h1, fun h3 => h2 (Or.inr h3)⟩
        rw [hsplit, Finset.card_insert_of_not_mem (by simp)]
        have : admittedVotes [Effect.insertEvent
            ⟨"vote", pickUsername p.1.displayName p.1.username, 1, voteDigit p.2⟩,
            Effect.log (LogLine.voted (pickUsername p.1.displayName p.1.username)
              (voteDigit p.2))] = 1 := by
          simp [admittedVotes, isVoteInsert]
        rw [this]
        omega
    · -- duplicate sender: rejected, set unchanged
      have hks : senderKey p.1 ∈ s.toFinset := (VoterSet.contains_true_iff s _).mp hc
      have hstep := onMessage_duplicate_vote s p.1 p.2 hp hc
      have ihs := ih hrest s
      constructor
      · show (processMessages s (p :: rest)).1.toFinset = _
        simp only [processMessages, hstep]
        rw [ihs.1]
        ext x
        simp only [Finset.mem_union, Finset.mem_insert, List.map_cons, List.toFinset_cons]
        constructor
        · rintro (h1 | h1)
          · exact Or.inl h1
          · exact Or.inr (Or.inr h1)
        · rintro (h1 | h1 | h1)
          · exact Or.inl h1
          · subst h1; exact Or.inl hks
          · exact Or.inr h1
      · show admittedVotes (processMessages s (p :: rest)).2 = _
        simp only [processMessages, hstep]
        rw [admittedVotes_append, admittedVotes_append, admittedVotes_cheerEffects, ihs.2]
        have h0 : admittedVotes [Effect.log (LogLine.alreadyVoted
            (pickUsername p.1.displayName p.1.username))] = 0 := by
          simp [admittedVotes, isVoteInsert]
        rw [h0, List.map_cons, List.toFinset_cons, Finset.insert_sdiff_of_mem _ hks]
        omega

theorem VoterSet.contains_add_self (s : VoterSet) (k : String) :
    (VoterSet.add s k).contains k = true := by
  rw [VoterSet.contains_true_iff, VoterSet.toFinset_add]
  exact Finset.mem_insert_self k _

/-- Claim C1: for every sequence of vote messages processed between two
resets, each participant contributes at most one admitted (forwarded) vote:
the number of admitted votes equals the number of distinct participants
(distinct dedup keys) in the sequence, independently of repeat count and
order, and a repeated vote from a participant already in the voter set is
rejected without forwarding. -/
theorem C1_dedup_invariant (msgs : List (Tags × String))
    (hv : ∀ p ∈ msgs, isVoteText p.2 = true) :
    admittedVotes (processMessages [] msgs).2 =
        ((msgs.map fun p => senderKey p.1).toFinset).card
    ∧ (∀ msgs2, msgs.Perm msgs2 →
        admittedVotes (processMessages [] msgs).2 =
          admittedVotes (processMessages [] msgs2).2)
    ∧ (∀ (s : VoterSet) (tags : Tags) (m : String), isVoteText m = true →
        s.contains (senderKey tags) = true →
        (onMessage s tags m false).1 = s ∧
          admittedVotes (onMessage s tags m false).2 = 0) := by
  refine ⟨?_, ?_, ?_⟩
  · have h := (processMessages_invariant msgs hv []).2
    simpa using h
  · intro msgs2 hperm
    have hv2 : ∀ p ∈ msgs2, isVoteText p.2 = true := fun p hp =>
      hv p (hperm.mem_iff.mpr hp)
    have h1 := (processMessages_invariant msgs hv []).2
    have h2 := (processMessages_invariant msgs2 hv2 []).2
    have hkeys : (msgs.map fun p => senderKey p.1).toFinset =
        (msgs2.map fun p => senderKey p.1).toFinset :=
      List.toFinset_eq_of_perm _ _ (hperm.map _)
    simp only [h1, h2, hkeys]
  · intro s tags m hm hdup
    rw [onMessage_duplicate_vote s tags m hm hdup]
    refine ⟨rfl, ?_⟩
    rw [admittedVotes_append, admittedVotes_cheerEffects]
    simp [admittedVotes, isVoteInsert]

/-- Closed instance of C1: the sequence alice !1, Bob !2, ALICE !3 admits
exactly two votes (alice and ALICE share one dedup key). -/
theorem C1_dedup_invariant_witness :
    admittedVotes (processMessages []
      [(⟨none, "alice", none, false, false, 0⟩, "!1"),
       (⟨none, "Bob", none, false, false, 0⟩, "!2"),
       (⟨none, "ALICE", none, false, false, 0⟩, "!3")]).2 = 2 := by
  have h := C1_dedup_invariant
    [(⟨none, "alice", none, false, false, 0⟩, "!1"),
     (⟨none, "Bob", none, false, false, 0⟩, "!2"),
     (⟨none, "ALICE", none, false, false, 0⟩, "!3")] (by decide)
  rw [h.1]
  decide

/-- Claim C3: in the current behavior a message whose trimmed text is exactly
!1, !2 or !3 is a candidate vote for every sender with arbitrary role flags
(subscriber, moderator, broadcaster are quantified and play no role): when the
sender has not voted this phase, the vote is forwarded with payload the digit
of the command and the sender is recorded in the voter set. -/
theorem C3_votes_open_to_all (voters : VoterSet) (tags : Tags) (m : String)
    (hm : isVoteText m = true) (hnew : voters.contains (senderKey tags) = false) :
    onMessage voters tags m false =
      (VoterSet.add voters (senderKey tags),
       cheerEffects tags m ++
        [Effect.insertEvent ⟨"vote", pickUsername tags.displayName tags.username, 1, voteDigit m⟩,
         Effect.log (LogLine.voted (pickUsername tags.displayName tags.username) (voteDigit m))])
    ∧ jsTrim m = "!" ++ voteDigit m := by
  refine ⟨onMessage_new_vote voters tags m hm hnew, ?_⟩
  simp only [voteDigit]
  rcases isVoteText_cases hm with h | h | h <;> rw [h] <;> decide

/-- Closed instance of C3: a plain viewer (no role flags set) voting !2 with
surrounding whitespace is admitted with payload 2. -/
theorem C3_votes_open_to_all_witness :
    onMessage [] ⟨none, "Carol", none, false, false, 0⟩ " !2 " false =
      (["carol"], [Effect.insertEvent ⟨"vote", "Carol", 1, "2"⟩,
        Effect.log (LogLine.voted "Carol" "2")]) := by
  have h := C3_votes_open_to_all [] ⟨none, "Carol", none, false, false, 0⟩ " !2 "
    (by decide) (by decide)
  exact h.1.trans (by decide)

/-- Claim C4: vote deduplication is case-insensitive on participant identity:
when two vote messages have senders whose identities lowercase to the same
dedup key, the first is admitted and the second is rejected in the same phase
without forwarding and without changing the voter set. -/
theorem C4_case_insensitive_dedup (s : VoterSet) (t1 t2 : Tags) (m1 m2 : String)
    (h1 : isVoteText m1 = true) (h2 : isVoteText m2 = true)
    (hkey : senderKey t1 = senderKey t2)
    (hnew : s.contains (senderKey t1) = false) :
    admittedVotes (onMessage s t1 m1 false).2 = 1
    ∧ onMessage (onMessage s t1 m1 false).1 t2 m2 false =
        ((onMessage s t1 m1 false).1,
         cheerEffects t2 m2 ++
           [Effect.log (LogLine.alreadyVoted (pickUsername t2.displayName t2.username))]) := by
  have hstep := onMessage_new_vote s t1 m1 h1 hnew
  constructor
  · rw [hstep]
    show admittedVotes (cheerEffects t1 m1 ++ _) = 1
    rw [admittedVotes_append, admittedVotes_cheerEffects]
    simp [admittedVotes, isVoteInsert]
  · apply onMessage_duplicate_vote _ t2 m2 h2
    rw [hstep, ← hkey]
    exact VoterSet.contains_add_self s (senderKey t1)

/-- Closed instance of C4: User votes, then user is rejected. -/
theorem C4_case_insensitive_dedup_witness :
    admittedVotes (onMessage [] ⟨none, "User", none, false, false, 0⟩ "!1" false).2 = 1
    ∧ onMessage (onMessage [] ⟨none, "User", none, false, false, 0⟩ "!1" false).1
        ⟨none, "user", none, false, false, 0⟩ "!1" false =
      ((onMessage [] ⟨none, "User", none, false, false, 0⟩ "!1" false).1,
       [Effect.log (LogLine.alreadyVoted "user")]) := by
  have h := C4_case_insensitive_dedup [] ⟨none, "User", none, false, false, 0⟩
      ⟨none, "user", none, false, false, 0⟩ "!1" "!1" (by decide) (by decide) rfl (by decide)
  exact ⟨h.1, h.2.trans (by decide)⟩

/-- Claim C5: the reset performed by the voting_phase_start callback clears
the voter set unconditionally and in full for every current state (any size,
including 0), is idempotent, and after it a participant who voted in the
previous phase is admitted again. -/
theorem C5_reset_total_idempotent (st : BotState) :
    (onVotingPhaseStart st).currentPhaseVoters = []
    ∧ VoterSet.size (onVotingPhaseStart st).currentPhaseVoters = 0
    ∧ onVotingPhaseStart (onVotingPhaseStart st) = onVotingPhaseStart st
    ∧ (∀ (tags : Tags) (m : String), isVoteText m = true →
        admittedVotes (onMessage (onVotingPhaseStart st).currentPhaseVoters tags m false).2 = 1) := by
  refine ⟨rfl, rfl, rfl, ?_⟩
  intro tags m hm
  have hstep := onMessage_new_vote [] tags m hm rfl
  show admittedVotes (onMessage [] tags m false).2 = 1
  rw [hstep]
  show admittedVotes (cheerEffects tags m ++ _) = 1
  rw [admittedVotes_append, admittedVotes_cheerEffects]
  simp [admittedVotes, isVoteInsert]

/-- Closed instance of C5: resetting a state whose phase already saw a vote
from alice empties the set, twice in a row, and alice is admitted again. -/
theorem C5_reset_total_idempotent_witness :
    (onVotingPhaseStart ⟨["alice"], 5⟩).currentPhaseVoters = []
    ∧ onVotingPhaseStart (onVotingPhaseStart ⟨["alice"], 5⟩) =
        onVotingPhaseStart ⟨["alice"], 5⟩
    ∧ admittedVotes (onMessage (onVotingPhaseStart ⟨["alice"], 5⟩).currentPhaseVoters
        ⟨none, "alice", none, false, false, 0⟩ "!1" false).2 = 1 := by
  have h := C5_reset_total_idempotent ⟨["alice"], 5⟩
  exact ⟨h.1, h.2.2.1, h.2.2.2 ⟨none, "alice", none, false, false, 0⟩ "!1" (by decide)⟩

/-- Claim C10: a duplicate vote makes the handler return immediately after the
duplicate log line: the voter set is unchanged, no vote is forwarded, and no
classification rule after the vote rule runs for that message — the effect
list ends at the duplicate log, with no attack log and no further insert. -/
theorem C10_duplicate_early_return (voters : VoterSet) (tags : Tags) (m : String)
    (hm : isVoteText m = true) (hdup : voters.contains (senderKey tags) = true) :
    onMessage voters tags m false =
      (voters, cheerEffects tags m ++
        [Effect.log (LogLine.alreadyVoted (pickUsername tags.displayName tags.username))]) :=
  onMessage_duplicate_vote voters tags m hm hdup

/-- Closed instance of C10: a second !3 from Dave changes nothing and emits
only the duplicate log. -/
theorem C10_duplicate_early_return_witness :
    onMessage ["dave"] ⟨none, "Dave", none, false, false, 0⟩ "!3" false =
      (["dave"], [Effect.log (LogLine.alreadyVoted "Dave")]) := by
  have h := C10_duplicate_early_return ["dave"] ⟨none, "Dave", none, false, false, 0⟩ "!3"
    (by decide) (by decide)
  exact h.trans (by decide)

/-- Once the attempt budget is exhausted, any further failure statuses set no
timer and leave the counter at MAX_RECONNECT_ATTEMPTS. -/
theorem runStatuses_gave_up (l : List SubStatus)
    (hl : ∀ x ∈ l, x = SubStatus.CHANNEL_ERROR ∨ x = SubStatus.CLOSED) :
    (runStatuses 10 l).2 = [] ∧ (runStatuses 10 l).1 = 10 := by
  induction l with
  | nil => exact ⟨rfl, rfl⟩
  | cons x rest ih =>
    have hx := hl x (List.mem_cons_self x rest)
    have ihr := ih fun y hy => hl y (List.mem_cons_of_mem x hy)
    rcases hx with hx | hx <;> subst hx <;>
      simp [runStatuses, onSubscribeStatus, scheduleReconnect, MAX_RECONNECT_ATTEMPTS,
        ihr.1, ihr.2]

/-- Claim C7: the n-th consecutive subscription failure (1 ≤ n ≤ 10) schedules
a reconnect after min(2000 * 2 ^ (n - 1), 60000) ms and moves the counter to
n; once 10 attempts are used, failures schedule nothing ever after and the
counter stays at 10; a SUBSCRIBED status resets the counter to 0. -/
theorem C7_backoff_schedule (n : Nat) (h1 : 1 ≤ n) (h2 : n ≤ 10) :
    scheduleReconnect (n - 1) = (n, some (min (2000 * 2 ^ (n - 1)) 60000))
    ∧ (∀ l : List SubStatus,
        (∀ x ∈ l, x = SubStatus.CHANNEL_ERROR ∨ x = SubStatus.CLOSED) →
        (runStatuses 10 l).2 = [] ∧ (runStatuses 10 l).1 = 10)
    ∧ (∀ a, onSubscribeStatus a SubStatus.SUBSCRIBED = (0, none)) := by
  refine ⟨?_, runStatuses_gave_up, fun a => rfl⟩
  interval_cases n <;> decide

/-- Closed instance of C7: the third consecutive failure is scheduled after
8000 ms; two failures at the cap schedule nothing; SUBSCRIBED resets. -/
theorem C7_backoff_schedule_witness :
    scheduleReconnect 2 = (3, some 8000)
    ∧ (runStatuses 10 [SubStatus.CLOSED, SubStatus.CHANNEL_ERROR]).2 = []
    ∧ onSubscribeStatus 7 SubStatus.SUBSCRIBED = (0, none) := by
  have h := C7_backoff_schedule 3 (by decide) (by decide)
  exact ⟨h.1.trans (by decide),
    (h.2.1 [SubStatus.CLOSED, SubStatus.CHANNEL_ERROR] (by decide)).1, h.2.2 7⟩

/-- Claim C8: on process start the legacy revision attempts the connection
once and on failure retries at most 3 further times, each retry scheduled
after a fixed 5000 ms delay; when every attempt fails it performs exactly 3
retries and gives up with the fatal report, scheduling nothing further. -/
theorem C8_connect_retry (ok : Nat → Bool) :
    ((connectWithRetry ok 0).1.length ≤ 3
      ∧ ∀ d ∈ (connectWithRetry ok 0).1, d = 5000)
    ∧ ((∀ i, i ≤ 3 → ok i = false) →
        connectWithRetry ok 0 = ([5000, 5000, 5000], false)) := by
  constructor
  · rcases h0 : ok 0 with _ | _ <;> rcases h1 : ok 1 with _ | _ <;>
      rcases h2 : ok 2 with _ | _ <;> rcases h3 : ok 3 with _ | _ <;>
      simp [connectWithRetry, h0, h1, h2, h3]
  · intro hfail
    have h0 := hfail 0 (by omega)
    have h1 := hfail 1 (by omega)
    have h2 := hfail 2 (by omega)
    have h3 := hfail 3 (by omega)
    simp [connectWithRetry, h0, h1, h2, h3]

/-- Closed instance of C8: with every attempt failing, exactly three retries
of 5000 ms each are made and the result is fatal. -/
theorem C8_connect_retry_witness :
    connectWithRetry (fun _ => false) 0 = ([5000, 5000, 5000], false) :=
  (C8_connect_retry (fun _ => false)).2 fun _ _ => rfl

/-- The split vote branch composes, under sequential run-to-completion
execution, to the vote branch of onMessage (stated for a message without a
bits tag, where the cheer branch is empty). -/
theorem voteSplit_sequential_consistent (voters : VoterSet) (tags : Tags) (m : String)
    (hm : isVoteText m = true) (hb : tags.bits = 0) :
    onMessage voters tags m false =
      ((voteResume voters tags m (voteCheckAndForward voters tags m).2).1,
       (voteCheckAndForward voters tags m).1 ++
         (voteResume voters tags m (voteCheckAndForward voters tags m).2).2) := by
  rcases hc : voters.contains (senderKey tags) with _ | _
  · rw [onMessage_new_vote voters tags m hm hc]
    have hmem : jsToLower (pickUsername tags.displayName tags.username) ∉ voters := by
      intro hx
      have h2 : voters.contains (senderKey tags) = true := List.elem_iff.mpr hx
      exact absurd (h2.symm.trans hc) (by decide)
    simp [voteCheckAndForward, voteResume, hmem, cheerEffects, hb, senderKey]
  · rw [onMessage_duplicate_vote voters tags m hm hc]
    have hmem : jsToLower (pickUsername tags.displayName tags.username) ∈ voters :=
      List.elem_iff.mp hc
    simp [voteCheckAndForward, voteResume, hmem, cheerEffects, hb]

/-- Claim C9 (code bug witness): the check-and-record step is not atomic with
respect to the inbound event stream. The membership check and the set update
straddle the awaited insert, so when a second vote from the same sender runs
its check while the first is suspended on the await, both executions observe
the sender as absent and both forward: the interleaving admits 2 votes from
one participant within one phase, where sequential run-to-completion
processing of the same two messages admits 1. -/
theorem C9_check_and_record_not_atomic :
    admittedVotes (interleavedDuplicateVotes []
      ⟨none, "alice", none, false, false, 0⟩ "!1" "!1").2 = 2
    ∧ admittedVotes (processMessages []
        [(⟨none, "alice", none, false, false, 0⟩, "!1"),
         (⟨none, "alice", none, false, false, 0⟩, "!1")]).2 = 1 := by decide

/-! ### Helper lemmas for the corrected claims -/

theorem onMessage_self (voters : VoterSet) (tags : Tags) (m : String) :
    onMessage voters tags m true = (voters, []) := by
  simp [onMessage]

theorem onMessage_not_vote (voters : VoterSet) (tags : Tags) (m : String)
    (hm : isVoteText m = false) :
    onMessage voters tags m false =
      (voters, cheerEffects tags m ++
        (if jsToLower (jsTrim m) = "!attack" then
          [Effect.log (LogLine.usedAttack (pickUsername tags.displayName tags.username))]
         else [])) := by
  simp only [onMessage, hm, Bool.false_eq_true, if_false]
  split <;> simp

theorem insertsOfType_append (ty : String) (a b : List Effect) :
    insertsOfType ty (a ++ b) = insertsOfType ty a ++ insertsOfType ty b := by
  simp [insertsOfType, List.filter_append]

theorem insertsOfType_secret_cheer (tags : Tags) (m : String) :
    insertsOfType "secret_start" (cheerEffects tags m) = [] := by
  unfold cheerEffects
  split <;> simp [insertsOfType]

/-- The current revision handler never inserts a secret_start row. -/
theorem onMessage_no_secret_start (voters : VoterSet) (tags : Tags) (msg : String)
    (self : Bool) :
    insertsOfType "secret_start" (onMessage voters tags msg self).2 = [] := by
  cases self with
  | true => rw [onMessage_self]; rfl
  | false =>
    cases hvt : isVoteText msg with
    | false =>
      rw [onMessage_not_vote voters tags msg hvt]
      show insertsOfType "secret_start" (cheerEffects tags msg ++ _) = []
      rw [insertsOfType_append, insertsOfType_secret_cheer]
      split <;> simp [insertsOfType]
    | true =>
      cases hc : voters.contains (senderKey tags) with
      | true =>
        rw [onMessage_duplicate_vote voters tags msg hvt hc]
        show insertsOfType "secret_start" (cheerEffects tags msg ++ _) = []
        rw [insertsOfType_append, insertsOfType_secret_cheer]
        simp [insertsOfType]
      | false =>
        rw [onMessage_new_vote voters tags msg hvt hc]
        show insertsOfType "secret_start" (cheerEffects tags msg ++ _) = []
        rw [insertsOfType_append, insertsOfType_secret_cheer]
        simp [insertsOfType]

theorem VoterSet.mem_add_of_mem {s : VoterSet} {v : String} (k : String) (h : v ∈ s) :
    v ∈ VoterSet.add s k := by
  unfold VoterSet.add
  split
  · exact h
  · exact List.mem_cons_of_mem k h

/-- The current revision handler never removes a voter from the set. -/
theorem onMessage_voters_monotone (voters : VoterSet) (tags : Tags) (msg : String)
    (self : Bool) : ∀ v ∈ voters, v ∈ (onMessage voters tags msg self).1 := by
  intro v hv
  cases self with
  | true => rw [onMessage_self]; exact hv
  | false =>
    cases hvt : isVoteText msg with
    | false =>
      rw [onMessage_not_vote voters tags msg hvt]
      exact hv
    | true =>
      cases hc : voters.contains (senderKey tags) with
      | true =>
        rw [onMessage_duplicate_vote voters tags msg hvt hc]
        exact hv
      | false =>
        rw [onMessage_new_vote voters tags msg hvt hc]
        exact VoterSet.mem_add_of_mem _ hv

/-- The legacy handler forwards a boss_attack row exactly when the untrimmed
lowercased message equals !attack, and then forwards
(boss_attack, username, 1, empty). -/
theorem onMessageV1_boss_attack (t1 : TagsV1) (m1 : String) :
    bossAttackRecords (onMessageV1 t1 m1 false) =
      (if jsToLower m1 = "!attack" then
        [(⟨"boss_attack", t1.username, 1, ""⟩ : EventRecord)]
       else []) := by
  obtain ⟨u, bits, msgId, sub⟩ := t1
  rcases bits with _ | b
  · simp [onMessageV1, bossAttackRecords, List.filter_append,
      apply_ite (List.filter fun (e : EventRecord) => e.event_type == "boss_attack")]
  · by_cases hb : b > 0 <;>
      simp [onMessageV1, bossAttackRecords, List.filter_append, hb,
        apply_ite (List.filter fun (e : EventRecord) => e.event_type == "boss_attack")]

/-- Counterexample to claim C2 as stated: on the operator message
(!ripple_start Boss Phase 2, operator identity matching case-insensitively)
the current revision forwards no secretStart event and clears nothing — the
prior voter stays in the set and the effect list is empty; the legacy
revision does forward secret_start but computes the payload by dropping 14
characters instead of the 13-character command token, so on
!ripple_start:X the payload is X while the remainder after the token,
trimmed, is :X. -/
theorem C2_counterexample :
    jsToLower "iBlackish_" = "iblackish_"
    ∧ jsStartsWith "!ripple_start Boss Phase 2" "!ripple_start" = true
    ∧ onMessage ["priorvoter"] ⟨none, "iBlackish_", none, false, false, 0⟩
        "!ripple_start Boss Phase 2" false = (["priorvoter"], [])
    ∧ jsStartsWith "!ripple_start:X" "!ripple_start" = true
    ∧ onMessageV1 ⟨"iBlackish_", none, none, false⟩ "!ripple_start:X" false =
        [⟨"secret_start", "iblackish_", 1, "X"⟩]
    ∧ jsTrim (jsSlice "!ripple_start:X" 13) = ":X" := by decide

/-- Claim C2 amended: only the legacy revision handles the operator command:
for every message from the operator identity (case-insensitive) starting with
the literal !ripple_start it forwards one secret_start event with amount 1
and payload the message with its first 14 characters removed, then trimmed;
no phase reset occurs — the legacy revision keeps no voter set at all, and
the current revision never forwards a secret_start event and never removes a
voter from its set on any message. -/
theorem C2_operator_command_amended (t1 : TagsV1) (m : String)
    (hop : jsToLower t1.username = "iblackish_")
    (hcmd : jsStartsWith m "!ripple_start" = true) :
    ((⟨"secret_start", "iblackish_", 1, jsTrim (jsSlice m 14)⟩ : EventRecord)
        ∈ onMessageV1 t1 m false)
    ∧ ∀ (voters : VoterSet) (tags : Tags) (msg : String) (self : Bool),
        insertsOfType "secret_start" (onMessage voters tags msg self).2 = []
        ∧ ∀ v ∈ voters, v ∈ (onMessage voters tags msg self).1 := by
  refine ⟨?_, fun voters tags msg self =>
    ⟨onMessage_no_secret_start voters tags msg self,
     onMessage_voters_monotone voters tags msg self⟩⟩
  simp [onMessageV1, hop, hcmd]

/-- Closed instance of the amended C2: the operator command forwards the
secret_start row with the sliced-and-trimmed payload in the legacy revision,
and the current revision forwards no secret_start row for the same input. -/
theorem C2_operator_command_amended_witness :
    ((⟨"secret_start", "iblackish_", 1, "Boss Phase 2"⟩ : EventRecord)
        ∈ onMessageV1 ⟨"iBlackish_", none, none, false⟩ "!ripple_start Boss Phase 2" false)
    ∧ insertsOfType "secret_start"
        (onMessage ["priorvoter"] ⟨none, "iBlackish_", none, false, false, 0⟩
          "!ripple_start Boss Phase 2" false).2 = [] := by
  have h := C2_operator_command_amended ⟨"iBlackish_", none, none, false⟩
    "!ripple_start Boss Phase 2" (by decide) (by decide)
  refine ⟨?_, (h.2 ["priorvoter"] ⟨none, "iBlackish_", none, false, false, 0⟩
    "!ripple_start Boss Phase 2" false).1⟩
  have h1 := h.1
  rw [show jsTrim (jsSlice "!ripple_start Boss Phase 2" 14) = "Boss Phase 2" from by decide]
    at h1
  exact h1

/-- Counterexample to claim C6 as stated: a message whose trimmed lowercased
text equals !attack is forwarded by neither revision: the current revision
only logs the attack (empty insert list), and the legacy revision, fed the
variant with leading whitespace (whose trimmed lowercasing still equals
!attack), forwards nothing because it compares the untrimmed text. -/
theorem C6_counterexample :
    jsToLower (jsTrim "!attack") = "!attack"
    ∧ onMessage [] ⟨none, "eve", none, false, false, 0⟩ "!attack" false =
        ([], [Effect.log (LogLine.usedAttack "eve")])
    ∧ jsToLower (jsTrim " !Attack") = "!attack"
    ∧ onMessageV1 ⟨"eve", none, none, false⟩ " !Attack" false = [] := by decide

/-- Claim C6 amended: in the current revision a message whose trimmed
lowercased text equals !attack only logs the attack: the voter set is
unchanged and no row is forwarded for it (only a cheer for the same message
can be inserted, when a bits tag is present); in the legacy revision a
boss_attack row with amount 1 and empty payload is forwarded exactly when the
untrimmed lowercased message equals !attack. -/
theorem C6_attack_amended (voters : VoterSet) (tags : Tags) (m : String)
    (h : jsToLower (jsTrim m) = "!attack") :
    onMessage voters tags m false =
      (voters, cheerEffects tags m ++
        [Effect.log (LogLine.usedAttack (pickUsername tags.displayName tags.username))])
    ∧ ∀ (t1 : TagsV1) (m1 : String),
        bossAttackRecords (onMessageV1 t1 m1 false) =
          (if jsToLower m1 = "!attack" then
            [(⟨"boss_attack", t1.username, 1, ""⟩ : EventRecord)]
           else []) := by
  refine ⟨?_, fun t1 m1 => onMessageV1_boss_attack t1 m1⟩
  have hv : isVoteText m = false := by
    cases hvt : isVoteText m with
    | false => rfl
    | true => exact absurd h (isVoteText_not_attack hvt)
  rw [onMessage_not_vote voters tags m hv, if_pos h]

/-- Closed instance of the amended C6: a trimmed case-insensitive !attack in
the current revision yields only the log line; the legacy revision forwards
boss_attack exactly on the untrimmed lowercased match. -/
theorem C6_attack_amended_witness :
    onMessage ["bob"] ⟨none, "Eve", none, false, false, 0⟩ " !ATTACK" false =
      (["bob"], [Effect.log (LogLine.usedAttack "Eve")])
    ∧ bossAttackRecords (onMessageV1 ⟨"Eve", none, none, false⟩ "!Attack" false) =
        [⟨"boss_attack", "Eve", 1, ""⟩] := by
  have h := C6_attack_amended ["bob"] ⟨none, "Eve", none, false, false, 0⟩ " !ATTACK"
    (by decide)
  refine ⟨h.1.trans (by decide), ?_⟩
  have h2 := h.2 ⟨"Eve", none, none, false⟩ "!Attack"
  rw [if_pos (by decide : jsToLower "!Attack" = "!attack")] at h2
  exact h2
